import Mathlib

/-!
Verification of the sagrag retrieval-fusion-reasoning pipeline.

This file is a shallow embedding, in Lean 4, of the core pure logic of the
pipeline: the evidence-fusion dedup stage, the policy-rule filter, the
retrieval-orchestrator merge and diagnostics, the confidence judge with its
deterministic adjustments, the synthesis provenance validation, and the
hallucination-risk computation of the query endpoint.

Conventions used throughout:
* Python floats are modelled as exact rationals.
* Python `None` is modelled with `Option`; where a dict distinguishes a
  missing key from a key stored as `None`, a double `Option` is used
  (outer layer: key present; inner layer: value non-null).
* Python string truthiness (`None` and `""` are falsy) is `optStrTruthy`.
* Free-text note strings produced by the judge adjustments are modelled as
  lists of tags (one tag appended per adjustment), since only the leading
  fallback tag is ever observable.
-/

namespace SagRag

/-- Python truthiness of an optional string: `None` and `""` are falsy. -/
def optStrTruthy : Option String → Bool
  | none => false
  | some s => s ≠ ""

/-- Python `s.lower()` (character-wise lower-casing). -/
def pyLower (s : String) : String :=
  String.mk (s.data.map Char.toLower)

/-- Split a character list at whitespace characters. -/
def splitWsAux : List Char → List Char → List (List Char)
  | [], cur => [cur.reverse]
  | c :: rest, cur =>
    if c.isWhitespace then cur.reverse :: splitWsAux rest []
    else splitWsAux rest (c :: cur)

/-- Python `s.split()` with no separator: split on whitespace, dropping
empty pieces. -/
def pyWords (s : String) : List String :=
  ((splitWsAux s.data []).map String.mk).filter (fun w => w ≠ "")

/-- The dedup key of api.py: `" ".join(text.lower().split())`, the
whitespace-normalized lower-cased text. -/
def normKey (s : String) : String :=
  " ".intercalate (pyWords (pyLower s))

/-- Python substring containment `needle in haystack`. -/
def strIn (needle haystack : String) : Bool :=
  decide (needle.data <:+: haystack.data)

/-- A normalized evidence item, as built by the query endpoint of api.py
(`normalized.append({...})`): id, text, source, timestamp, byte offsets,
source type, domain and retrieval score. -/
structure EvidenceItem where
  id : Option String
  text : String
  source : Option String
  timestamp : Option ℚ
  offset_start : Option Int
  offset_end : Option Int
  source_type : String
  domain : String
  score : Option ℚ
deriving DecidableEq

/-- The fusion dedup stage of api.py (`/query`, "Dedupe by normalized text"):
walk the list keeping an item only when its normalized-text fingerprint has
not been seen before. -/
def dedupeByText (seen : List String) : List EvidenceItem → List EvidenceItem
  | [] => []
  | r :: rest =>
    let fp := normKey r.text
    if fp ∈ seen then dedupeByText seen rest
    else r :: dedupeByText (fp :: seen) rest

theorem dedupe_key_not_seen {seen : List String} {l : List EvidenceItem}
    {x : EvidenceItem} (hx : x ∈ dedupeByText seen l) : normKey x.text ∉ seen := by
  induction l generalizing seen with
  | nil => simp [dedupeByText] at hx
  | cons r rest ih =>
    simp only [dedupeByText] at hx
    split at hx
    · exact ih hx
    · rcases List.mem_cons.mp hx with h | h
      · subst h; assumption
      · have := ih h
        exact fun hc => this (List.mem_cons_of_mem _ hc)

theorem dedupe_pairwise (seen : List String) (l : List EvidenceItem) :
    (dedupeByText seen l).Pairwise (fun a b => normKey a.text ≠ normKey b.text) := by
  induction l generalizing seen with
  | nil => simp [dedupeByText]
  | cons r rest ih =>
    simp only [dedupeByText]
    split
    · exact ih seen
    · refine List.Pairwise.cons ?_ (ih _)
      intro y hy heq
      exact (dedupe_key_not_seen hy) (heq ▸ List.mem_cons_self _ _)

theorem dedupe_first_occurrence {seen : List String} {l : List EvidenceItem}
    {x : EvidenceItem} (hx : x ∈ dedupeByText seen l) :
    normKey x.text ∉ seen ∧
      ∃ l₁ l₂, l = l₁ ++ x :: l₂ ∧ ∀ y ∈ l₁, normKey y.text ≠ normKey x.text := by
  induction l generalizing seen with
  | nil => simp [dedupeByText] at hx
  | cons r rest ih =>
    simp only [dedupeByText] at hx
    split at hx
    · rename_i hseen
      obtain ⟨hnot, l₁, l₂, heq, hall⟩ := ih hx
      refine ⟨hnot, r :: l₁, l₂, by simp [heq], ?_⟩
      intro y hy
      rcases List.mem_cons.mp hy with h | h
      · subst h
        intro hk
        exact hnot (hk ▸ hseen)
      · exact hall y h
    · rename_i hseen
      rcases List.mem_cons.mp hx with h | h
      · subst h
        exact ⟨hseen, [], rest, rfl, by simp⟩
      · obtain ⟨hnot, l₁, l₂, heq, hall⟩ := ih h
        have hne : normKey x.text ≠ normKey r.text :=
          fun hc => hnot (hc ▸ List.mem_cons_self _ _)
        refine ⟨fun hc => hnot (List.mem_cons_of_mem _ hc), r :: l₁, l₂, by simp [heq], ?_⟩
        intro y hy
        rcases List.mem_cons.mp hy with h' | h'
        · subst h'; exact fun hc => hne hc.symm
        · exact hall y h'

theorem dedupe_covers (seen : List String) {l : List EvidenceItem}
    {x : EvidenceItem} (hx : x ∈ l) :
    normKey x.text ∈ seen ∨
      ∃ y ∈ dedupeByText seen l, normKey y.text = normKey x.text := by
  induction l generalizing seen with
  | nil => simp at hx
  | cons r rest ih =>
    simp only [dedupeByText]
    rcases List.mem_cons.mp hx with h | h
    · subst h
      split
      · exact Or.inl (by assumption)
      · exact Or.inr ⟨x, List.mem_cons_self _ _, rfl⟩
    · split
      · exact ih seen h
      · rcases ih (normKey r.text :: seen) h with hmem | ⟨y, hy, hk⟩
        · rcases List.mem_cons.mp hmem with heq | hmem'
          · exact Or.inr ⟨r, List.mem_cons_self _ _, heq.symm⟩
          · exact Or.inl hmem'
        · exact Or.inr ⟨y, List.mem_cons_of_mem _ hy, hk⟩

/-- C8: after the fusion dedup stage no two surviving items share the
whitespace-normalized lower-cased text key; the item kept for a key is the
first occurrence in input order; every input key survives; and the same
distinctness holds after the re-dedup that follows author-guided expansion
(the dedup pass applied to the previous output extended with author hits). -/
theorem dedup_distinct_first_occurrence (l extra : List EvidenceItem) :
    (dedupeByText [] l).Pairwise (fun a b => normKey a.text ≠ normKey b.text) ∧
    (∀ x ∈ dedupeByText [] l,
      ∃ l₁ l₂, l = l₁ ++ x :: l₂ ∧ ∀ y ∈ l₁, normKey y.text ≠ normKey x.text) ∧
    (∀ x ∈ l, ∃ y ∈ dedupeByText [] l, normKey y.text = normKey x.text) ∧
    (dedupeByText [] (dedupeByText [] l ++ extra)).Pairwise
      (fun a b => normKey a.text ≠ normKey b.text) := by
  refine ⟨dedupe_pairwise [] l, ?_, ?_, dedupe_pairwise [] _⟩
  · intro x hx
    exact (dedupe_first_occurrence hx).2
  · intro x hx
    rcases dedupe_covers [] hx with h | h
    · simp at h
    · exact h

/-- Witness for C8 at a concrete duplicate-bearing list. -/
theorem dedup_distinct_first_occurrence_witness :
    ((dedupeByText [] [⟨some "a", "Fear  is", none, none, none, none, "", "", none⟩,
        ⟨some "b", "fear is", none, none, none, none, "", "", none⟩]).Pairwise
      (fun a b => normKey a.text ≠ normKey b.text)) :=
  (dedup_distinct_first_occurrence
    [⟨some "a", "Fear  is", none, none, none, none, "", "", none⟩,
     ⟨some "b", "fear is", none, none, none, none, "", "", none⟩] []).1

/-! ## Policy rules (agents.py `_match_rule` / `apply_policy_rules`) -/

/-- A policy rule as configured in `settings.policy_rules`: an action and a
match predicate over contains / not_contains substrings, domains and source
types.  Missing keys (`rule.get(...) or []`) are the empty list. -/
structure PolicyRule where
  action : String
  contains : List String
  not_contains : List String
  domains : List String
  source_types : List String
deriving DecidableEq

/-- agents.py `_match_rule`: the rule matches unless one of the configured
(non-empty) predicate components rejects the item. -/
def matchRule (rule : PolicyRule) (text source_type domain : String) : Bool :=
  if rule.domains ≠ [] ∧ domain ∉ rule.domains then false
  else if rule.source_types ≠ [] ∧ source_type ∉ rule.source_types then false
  else if rule.contains ≠ [] ∧ ¬ (rule.contains.any (fun c => strIn c (pyLower text))) then false
  else if rule.not_contains ≠ [] ∧ rule.not_contains.any (fun c => strIn c (pyLower text)) then false
  else true

/-- The ordered-rule loop of agents.py `apply_policy_rules`: rules whose
action (lower-cased) is neither "allow" nor "deny" are skipped; the first
matching remaining rule fixes the decision. -/
def ruleDecision (text source_type domain : String) : List PolicyRule → Option String
  | [] => none
  | rule :: rest =>
    let action := pyLower rule.action
    if action ≠ "allow" ∧ action ≠ "deny" then ruleDecision text source_type domain rest
    else if matchRule rule text source_type domain then some action
    else ruleDecision text source_type domain rest

/-- The allow/deny-list pre-checks at the top of the `apply_policy_rules`
loop body (allowlist substrings, source-type and domain allow/block sets);
note the Python truthiness guards: an empty source_type or domain bypasses
its set checks. -/
def passesPreChecks (allowlist source_types_allow source_types_block
    domains_allow domains_block : List String) (r : EvidenceItem) : Bool :=
  if allowlist ≠ [] ∧ ¬ (allowlist.any (fun a => strIn a (pyLower r.text))) then false
  else if source_types_allow ≠ [] ∧ r.source_type ≠ "" ∧ r.source_type ∉ source_types_allow then false
  else if source_types_block ≠ [] ∧ r.source_type ≠ "" ∧ r.source_type ∈ source_types_block then false
  else if domains_allow ≠ [] ∧ r.domain ≠ "" ∧ r.domain ∉ domains_allow then false
  else if domains_block ≠ [] ∧ r.domain ≠ "" ∧ r.domain ∈ domains_block then false
  else true

/-- agents.py `apply_policy_rules`: per item, the pre-checks run first; when
a non-empty rule list is configured, a first-match decision of "deny" drops
the item and any other outcome (allow, or no match) keeps it. -/
def apply_policy_rules (allowlist source_types_allow source_types_block
    domains_allow domains_block : List String) (rules : List PolicyRule) :
    List EvidenceItem → List EvidenceItem
  | [] => []
  | r :: rest =>
    let tail := apply_policy_rules allowlist source_types_allow source_types_block
      domains_allow domains_block rules rest
    if passesPreChecks allowlist source_types_allow source_types_block
        domains_allow domains_block r then
      if rules ≠ [] then
        if ruleDecision r.text r.source_type r.domain rules = some "deny" then tail
        else r :: tail
      else r :: tail
    else tail

/-- The concrete rule list of the claim:
`[{contains:["x"], action:"deny"}, {contains:["x"], action:"allow"}]`. -/
def xRules : List PolicyRule :=
  [⟨"deny", ["x"], [], [], []⟩, ⟨"allow", ["x"], [], [], []⟩]

theorem ruleDecision_first_match (text source_type domain : String)
    (rules₁ rules₂ : List PolicyRule) (rule : PolicyRule)
    (hskip : ∀ q ∈ rules₁, (pyLower q.action = "allow" ∨ pyLower q.action = "deny") →
      matchRule q text source_type domain = false)
    (hvalid : pyLower rule.action = "allow" ∨ pyLower rule.action = "deny")
    (hmatch : matchRule rule text source_type domain = true) :
    ruleDecision text source_type domain (rules₁ ++ rule :: rules₂) = some (pyLower rule.action) := by
  induction rules₁ with
  | nil =>
    simp only [List.nil_append, ruleDecision]
    have hv : ¬ (pyLower rule.action ≠ "allow" ∧ pyLower rule.action ≠ "deny") := by
      rcases hvalid with h | h <;> simp [h]
    rw [if_neg hv, if_pos hmatch]
  | cons q qs ih =>
    simp only [List.cons_append, ruleDecision]
    by_cases hq : pyLower q.action ≠ "allow" ∧ pyLower q.action ≠ "deny"
    · rw [if_pos hq]
      exact ih (fun p hp => hskip p (List.mem_cons_of_mem _ hp))
    · rw [if_neg hq]
      have hqv : pyLower q.action = "allow" ∨ pyLower q.action = "deny" := by
        by_contra hc
        push_neg at hc
        exact hq ⟨hc.1, hc.2⟩
      rw [hskip q (List.mem_cons_self _ _) hqv]
      simp only [Bool.false_eq_true, if_false]
      exact ih (fun p hp => hskip p (List.mem_cons_of_mem _ hp))

theorem ruleDecision_no_match (text source_type domain : String)
    (rules : List PolicyRule)
    (hnone : ∀ q ∈ rules, matchRule q text source_type domain = false) :
    ruleDecision text source_type domain rules = none := by
  induction rules with
  | nil => rfl
  | cons q qs ih =>
    simp only [ruleDecision]
    split
    · exact ih (fun p hp => hnone p (List.mem_cons_of_mem _ hp))
    · rw [hnone q (List.mem_cons_self _ _)]
      simp only [Bool.false_eq_true, if_false]
      exact ih (fun p hp => hnone p (List.mem_cons_of_mem _ hp))

/-- C6: rules are evaluated in declared order with first-match-wins
semantics.  For an item passing the separate allow/deny-list checks, if
every earlier rule with a valid action fails to match and `rule` is a valid
matching rule, then `rule`'s action alone governs (deny drops, anything else
keeps); an item matching no rule falls through to default accept; and for
the rule list `[{contains:["x"], deny}, {contains:["x"], allow}]` a text
containing "x" is dropped. -/
theorem policy_rules_first_match_wins (allowlist source_types_allow source_types_block
    domains_allow domains_block : List String) (r : EvidenceItem)
    (rules₁ rules₂ : List PolicyRule) (rule : PolicyRule)
    (hpre : passesPreChecks allowlist source_types_allow source_types_block
      domains_allow domains_block r = true)
    (hskip : ∀ q ∈ rules₁, (pyLower q.action = "allow" ∨ pyLower q.action = "deny") →
      matchRule q r.text r.source_type r.domain = false)
    (hvalid : pyLower rule.action = "allow" ∨ pyLower rule.action = "deny")
    (hmatch : matchRule rule r.text r.source_type r.domain = true) :
    (apply_policy_rules allowlist source_types_allow source_types_block
        domains_allow domains_block (rules₁ ++ rule :: rules₂) [r]
      = if pyLower rule.action = "deny" then [] else [r]) ∧
    (∀ rules : List PolicyRule,
      (∀ q ∈ rules, matchRule q r.text r.source_type r.domain = false) →
      apply_policy_rules allowlist source_types_allow source_types_block
        domains_allow domains_block rules [r] = [r]) ∧
    (∀ t : String, strIn "x" (pyLower t) = true →
      apply_policy_rules [] [] [] [] [] xRules
        [{ r with text := t, source_type := "", domain := "" }] = []) := by
  refine ⟨?_, ?_, ?_⟩
  · have hdec := ruleDecision_first_match r.text r.source_type r.domain
      rules₁ rules₂ rule hskip hvalid hmatch
    simp only [apply_policy_rules, hpre, if_true]
    have hne : rules₁ ++ rule :: rules₂ ≠ [] := by simp
    rw [if_pos hne, hdec]
    rcases hvalid with h | h
    · rw [h]
      simp
    · rw [h]
      simp
  · intro rules hnone
    have hdec := ruleDecision_no_match r.text r.source_type r.domain rules hnone
    simp only [apply_policy_rules, hpre, if_true]
    by_cases hr : rules ≠ []
    · rw [if_pos hr, hdec]
      simp
    · rw [if_neg hr]
  · intro t ht
    have hm : matchRule ⟨"deny", ["x"], [], [], []⟩ t "" "" = true := by
      simp [matchRule, ht]
    have hld : pyLower "deny" = "deny" := by decide
    simp [apply_policy_rules, passesPreChecks, xRules, ruleDecision, hm, hld]

/-- Witness for C6: a concrete item containing "x" is dropped by the
deny-before-allow rule list, while default accept holds for no rules. -/
theorem policy_rules_first_match_wins_witness :
    apply_policy_rules [] [] [] [] [] xRules
      [⟨some "i", "box", none, none, none, none, "", "", none⟩] = [] := by
  have h := policy_rules_first_match_wins [] [] [] [] []
    ⟨some "i", "box", none, none, none, none, "", "", none⟩
    [] [] ⟨"deny", ["x"], [], [], []⟩ (by decide) (by simp) (Or.inr (by decide)) (by decide)
  exact h.2.2 "box" (by decide)

/-! ## Retrieval orchestrator (agents.py `run_agents` and the agent wrappers) -/

/-- A raw retrieval hit as merged by `run_agents`: the merge reads only
`r.get("id")`; score and the payload/source body are carried opaquely. -/
structure Hit where
  id : Option String
  score : ℚ
  body : String
deriving DecidableEq

/-- The outcome of one awaited agent call: the inner search either returned
a hit list, hit its independent `asyncio.wait_for` timeout, or raised a
transport error. -/
inductive CallResult where
  | success (hits : List Hit)
  | timedOut
  | errored
deriving DecidableEq

/-- The result shape of the agent wrappers (agents.py `vector_search`,
`lexical_search`, `structured_search` with `return_status=True`): a timeout
yields `([], "timeout")`, an error `([], "error")`, and a completed search
yields its hits with status `"ok"`, or `"zero_hits"` when empty. -/
def searchResult : CallResult → List Hit × String
  | .success hits => (hits, if hits.isEmpty then "zero_hits" else "ok")
  | .timedOut => ([], "timeout")
  | .errored => ([], "error")

/-- Per-agent diagnostics counters.  The Python dict is initialized with the
five named counters; `entry[status] = entry.get(status, 0) + 1` can in
principle create further keys, kept in `other`. -/
structure AgentDiag where
  attempted : ℕ
  ok : ℕ
  zero_hits : ℕ
  timeout : ℕ
  error : ℕ
  other : List (String × ℕ)
deriving DecidableEq

def emptyDiag : AgentDiag := ⟨0, 0, 0, 0, 0, []⟩

def bumpAssoc (k : String) : List (String × ℕ) → List (String × ℕ)
  | [] => [(k, 1)]
  | (k', v) :: rest => if k' = k then (k', v + 1) :: rest else (k', v) :: bumpAssoc k rest

/-- `entry[status] = entry.get(status, 0) + 1`. -/
def bumpStatus (d : AgentDiag) (status : String) : AgentDiag :=
  if status = "ok" then { d with ok := d.ok + 1 }
  else if status = "zero_hits" then { d with zero_hits := d.zero_hits + 1 }
  else if status = "timeout" then { d with timeout := d.timeout + 1 }
  else if status = "error" then { d with error := d.error + 1 }
  else if status = "attempted" then { d with attempted := d.attempted + 1 }
  else { d with other := bumpAssoc status d.other }

/-- `diagnostics.setdefault(agent_name, {...})` followed by the in-place
update: update the entry for the key, inserting a fresh one at the end when
absent (dict insertion order). -/
def updateDiag (k : String) (f : AgentDiag → AgentDiag) :
    List (String × AgentDiag) → List (String × AgentDiag)
  | [] => [(k, f emptyDiag)]
  | (k', v) :: rest => if k' = k then (k', f v) :: rest else (k', v) :: updateDiag k f rest

def lookupDiag (k : String) : List (String × AgentDiag) → Option AgentDiag
  | [] => none
  | (k', v) :: rest => if k' = k then some v else lookupDiag k rest

/-- The diagnostics loop of `run_agents`: per gathered call, bump
`attempted` and the call's status counter under the agent name. -/
def diagFold (acc : List (String × AgentDiag)) :
    List (String × CallResult) → List (String × AgentDiag)
  | [] => acc
  | (name, cr) :: rest =>
    diagFold (updateDiag name
      (fun d => bumpStatus { d with attempted := d.attempted + 1 } (searchResult cr).2) acc) rest

/-- `flattened.extend(results)` over the gathered calls, in task order. -/
def flattenHits (calls : List (String × CallResult)) : List Hit :=
  calls.flatMap (fun c => (searchResult c.2).1)

/-- The id-dedup loop of `run_agents`: first occurrence of each
`r.get("id")` wins (a `None` id participates like any other key). -/
def dedupById (seen : List (Option String)) : List Hit → List Hit
  | [] => []
  | r :: rest =>
    if r.id ∈ seen then dedupById seen rest
    else r :: dedupById (r.id :: seen) rest

/-- agents.py `run_agents`, lines 377-393: given the gathered per-call
outcomes `calls` (agent name from `task_meta` zipped with the awaited
result), return the merged deduplicated hits and the per-agent
diagnostics. -/
def run_agents (calls : List (String × CallResult)) :
    List Hit × List (String × AgentDiag) :=
  (dedupById [] (flattenHits calls), diagFold [] calls)

theorem dedupById_covers (seen : List (Option String)) {l : List Hit}
    {x : Hit} (hx : x ∈ l) :
    x.id ∈ seen ∨ ∃ y ∈ dedupById seen l, y.id = x.id := by
  induction l generalizing seen with
  | nil => simp at hx
  | cons r rest ih =>
    simp only [dedupById]
    rcases List.mem_cons.mp hx with h | h
    · subst h
      split
      · exact Or.inl (by assumption)
      · exact Or.inr ⟨x, List.mem_cons_self _ _, rfl⟩
    · split
      · exact ih seen h
      · rcases ih (r.id :: seen) h with hmem | ⟨y, hy, hk⟩
        · rcases List.mem_cons.mp hmem with heq | hmem'
          · exact Or.inr ⟨r, List.mem_cons_self _ _, heq.symm⟩
          · exact Or.inl hmem'
        · exact Or.inr ⟨y, List.mem_cons_of_mem _ hy, hk⟩

theorem lookupDiag_updateDiag_self (k : String) (f : AgentDiag → AgentDiag)
    (m : List (String × AgentDiag)) :
    lookupDiag k (updateDiag k f m) =
      some (f ((lookupDiag k m).getD emptyDiag)) := by
  induction m with
  | nil => simp [updateDiag, lookupDiag]
  | cons p rest ih =>
    obtain ⟨k', v⟩ := p
    simp only [updateDiag, lookupDiag]
    by_cases h : k' = k
    · simp [h, lookupDiag]
    · simp [h, lookupDiag, ih]

theorem lookupDiag_updateDiag_other (k k' : String) (hne : k' ≠ k)
    (f : AgentDiag → AgentDiag) (m : List (String × AgentDiag)) :
    lookupDiag k (updateDiag k' f m) = lookupDiag k m := by
  induction m with
  | nil => simp [updateDiag, lookupDiag, hne]
  | cons p rest ih =>
    obtain ⟨k'', v⟩ := p
    simp only [updateDiag]
    by_cases h : k'' = k'
    · subst h
      rw [if_pos rfl]
      simp only [lookupDiag]
      rw [if_neg hne, if_neg hne]
    · rw [if_neg h]
      simp only [lookupDiag]
      by_cases h2 : k'' = k
      · rw [if_pos h2, if_pos h2]
      · rw [if_neg h2, if_neg h2, ih]

/-- The sum invariant of one diagnostics entry: `attempted` equals the sum
of the four outcome counters and no stray dict key was created. -/
def diagOK (d : AgentDiag) : Prop :=
  d.attempted = d.ok + d.zero_hits + d.timeout + d.error ∧ d.other = []

theorem searchResult_status_mem (cr : CallResult) :
    (searchResult cr).2 = "ok" ∨ (searchResult cr).2 = "zero_hits" ∨
    (searchResult cr).2 = "timeout" ∨ (searchResult cr).2 = "error" := by
  cases cr with
  | success hits =>
    by_cases h : hits.isEmpty <;> simp [searchResult, h]
  | timedOut => simp [searchResult]
  | errored => simp [searchResult]

theorem diagOK_bump (d : AgentDiag) (cr : CallResult) (hd : diagOK d) :
    diagOK (bumpStatus { d with attempted := d.attempted + 1 } (searchResult cr).2) := by
  obtain ⟨hsum, hoth⟩ := hd
  rcases searchResult_status_mem cr with h | h | h | h <;>
    simp [bumpStatus, h, diagOK, hsum, hoth] <;> omega

theorem diagFold_ok (calls : List (String × CallResult))
    (acc : List (String × AgentDiag))
    (hacc : ∀ p ∈ acc, diagOK p.2) :
    ∀ p ∈ diagFold acc calls, diagOK p.2 := by
  induction calls generalizing acc with
  | nil => exact hacc
  | cons c rest ih =>
    obtain ⟨name, cr⟩ := c
    simp only [diagFold]
    refine ih _ ?_
    intro p hp
    clear ih
    induction acc with
    | nil =>
      simp only [updateDiag] at hp
      rcases List.mem_cons.mp hp with h | h
      · subst h
        exact diagOK_bump emptyDiag cr ⟨rfl, rfl⟩
      · simp at h
    | cons q qs ihq =>
      obtain ⟨k', v⟩ := q
      simp only [updateDiag] at hp
      split at hp
      · rcases List.mem_cons.mp hp with h | h
        · subst h
          exact diagOK_bump v cr (hacc ⟨k', v⟩ (List.mem_cons_self _ _))
        · exact hacc _ (List.mem_cons_of_mem _ h)
      · rcases List.mem_cons.mp hp with h | h
        · subst h
          exact hacc _ (List.mem_cons_self _ _)
        · exact ihq (fun p hp' => hacc p (List.mem_cons_of_mem _ hp')) h

theorem lookupDiag_mem {k : String} {m : List (String × AgentDiag)}
    {d : AgentDiag} (h : lookupDiag k m = some d) : (k, d) ∈ m := by
  induction m with
  | nil => simp [lookupDiag] at h
  | cons p rest ih =>
    obtain ⟨k', v⟩ := p
    simp only [lookupDiag] at h
    split at h
    · rename_i heq
      obtain rfl := heq
      obtain rfl : v = d := by injection h
      exact List.mem_cons_self _ _
    · exact List.mem_cons_of_mem _ (ih h)

/-- C10: in every `run_agents` result, each agent's `attempted` counter
equals the sum of its `ok`, `zero_hits`, `timeout` and `error` counters
(each gathered call bumps `attempted` once and exactly one outcome
counter). -/
theorem run_agents_attempted_sum (calls : List (String × CallResult))
    (name : String) (d : AgentDiag)
    (h : lookupDiag name (run_agents calls).2 = some d) :
    d.attempted = d.ok + d.zero_hits + d.timeout + d.error := by
  have := diagFold_ok calls [] (by simp) (name, d) (lookupDiag_mem h)
  exact this.1

/-- Witness for C10 at a concrete fan-out: one vector timeout and one
lexical success. -/
theorem run_agents_attempted_sum_witness :
    (1 : ℕ) = 0 + 0 + 1 + 0 :=
  run_agents_attempted_sum
    [("vector", .timedOut), ("lexical", .success [⟨some "h1", 1, "t"⟩])]
    "vector" ⟨1, 0, 0, 1, 0, []⟩ (by decide)

theorem diagFold_counts_timeout (calls : List (String × CallResult))
    (acc : List (String × AgentDiag)) (a : String)
    (hmem : (a, CallResult.timedOut) ∈ calls) :
    ∃ d, lookupDiag a (diagFold acc calls) = some d ∧ 1 ≤ d.timeout := by
  induction calls generalizing acc with
  | nil => simp at hmem
  | cons c rest ih =>
    obtain ⟨name, cr⟩ := c
    simp only [diagFold]
    rcases List.mem_cons.mp hmem with h | h
    · obtain ⟨rfl, rfl⟩ := Prod.mk.injEq .. ▸ h
      -- after this step the accumulator holds a timeout count ≥ 1 for `a`;
      -- show the fold preserves a positive timeout counter
      have hbase : ∃ d, lookupDiag a (updateDiag a
          (fun d => bumpStatus { d with attempted := d.attempted + 1 }
            (searchResult CallResult.timedOut).2) acc) = some d ∧ 1 ≤ d.timeout := by
        rw [lookupDiag_updateDiag_self]
        exact ⟨_, rfl, by simp [searchResult, bumpStatus]⟩
      obtain ⟨d0, hd0, hpos⟩ := hbase
      clear ih hmem h
      -- the remaining fold only increases counters
      have : ∀ (rest : List (String × CallResult)) (acc : List (String × AgentDiag))
          (d0 : AgentDiag), lookupDiag a acc = some d0 → 1 ≤ d0.timeout →
          ∃ d, lookupDiag a (diagFold acc rest) = some d ∧ 1 ≤ d.timeout := by
        intro rest
        induction rest with
        | nil => exact fun acc d0 h1 h2 => ⟨d0, h1, h2⟩
        | cons c' rest' ih' =>
          intro acc d0 h1 h2
          obtain ⟨name', cr'⟩ := c'
          simp only [diagFold]
          by_cases hn : name' = a
          · subst hn
            have hself := lookupDiag_updateDiag_self name'
              (fun d => bumpStatus { d with attempted := d.attempted + 1 }
                (searchResult cr').2) acc
            refine ih' _ _ hself ?_
            rw [h1]
            simp only [Option.getD_some]
            rcases searchResult_status_mem cr' with h | h | h | h <;>
              simp [bumpStatus, h] <;> omega
          · exact ih' _ d0 ((lookupDiag_updateDiag_other _ _ hn _ _).trans h1) h2
      exact this rest _ d0 hd0 hpos
    · exact ih _ h

theorem diagFold_counts_ok (calls : List (String × CallResult))
    (acc : List (String × AgentDiag)) (b : String) (hits : List Hit)
    (hne : hits ≠ []) (hmem : (b, CallResult.success hits) ∈ calls) :
    ∃ d, lookupDiag b (diagFold acc calls) = some d ∧ 1 ≤ d.ok := by
  induction calls generalizing acc with
  | nil => simp at hmem
  | cons c rest ih =>
    obtain ⟨name, cr⟩ := c
    simp only [diagFold]
    rcases List.mem_cons.mp hmem with h | h
    · obtain ⟨rfl, rfl⟩ := Prod.mk.injEq .. ▸ h
      have hstat : (searchResult (CallResult.success hits)).2 = "ok" := by
        simp [searchResult, List.isEmpty_iff, hne]
      have hbase : ∃ d, lookupDiag b (updateDiag b
          (fun d => bumpStatus { d with attempted := d.attempted + 1 }
            (searchResult (CallResult.success hits)).2) acc) = some d ∧ 1 ≤ d.ok := by
        rw [lookupDiag_updateDiag_self]
        exact ⟨_, rfl, by simp [hstat, bumpStatus]⟩
      obtain ⟨d0, hd0, hpos⟩ := hbase
      clear ih hmem h
      have : ∀ (rest : List (String × CallResult)) (acc : List (String × AgentDiag))
          (d0 : AgentDiag), lookupDiag b acc = some d0 → 1 ≤ d0.ok →
          ∃ d, lookupDiag b (diagFold acc rest) = some d ∧ 1 ≤ d.ok := by
        intro rest
        induction rest with
        | nil => exact fun acc d0 h1 h2 => ⟨d0, h1, h2⟩
        | cons c' rest' ih' =>
          intro acc d0 h1 h2
          obtain ⟨name', cr'⟩ := c'
          simp only [diagFold]
          by_cases hn : name' = b
          · subst hn
            have hself := lookupDiag_updateDiag_self name'
              (fun d => bumpStatus { d with attempted := d.attempted + 1 }
                (searchResult cr').2) acc
            refine ih' _ _ hself ?_
            rw [h1]
            simp only [Option.getD_some]
            rcases searchResult_status_mem cr' with h | h | h | h <;>
              simp [bumpStatus, h] <;> omega
          · exact ih' _ d0 ((lookupDiag_updateDiag_other _ _ hn _ _).trans h1) h2
      exact this rest _ d0 hd0 hpos
    · exact ih _ h

/-- C4: per-agent timeouts are independent.  A timed-out (or errored) call
contributes `([], "timeout")` (resp. `([], "error")`) instead of
propagating; every hit of every succeeding sibling call still reaches the
merged output (its id survives the first-occurrence dedup); and the
diagnostics record the timed-out agent with a `timeout` count and the
succeeding agent with an `ok` count. -/
theorem run_agents_timeout_independence (calls : List (String × CallResult))
    (a b : String) (hitsB : List Hit)
    (hA : (a, CallResult.timedOut) ∈ calls)
    (hB : (b, CallResult.success hitsB) ∈ calls)
    (hne : hitsB ≠ []) :
    searchResult .timedOut = ([], "timeout") ∧
    searchResult .errored = ([], "error") ∧
    (∀ h ∈ hitsB, ∃ h' ∈ (run_agents calls).1, h'.id = h.id) ∧
    (∃ d, lookupDiag a (run_agents calls).2 = some d ∧ 1 ≤ d.timeout) ∧
    (∃ d, lookupDiag b (run_agents calls).2 = some d ∧ 1 ≤ d.ok) := by
  refine ⟨rfl, rfl, ?_, ?_, ?_⟩
  · intro h hh
    have hflat : h ∈ flattenHits calls := by
      simp only [flattenHits, List.mem_flatMap]
      exact ⟨(b, CallResult.success hitsB), hB, by simpa [searchResult] using hh⟩
    rcases dedupById_covers [] hflat with hc | hc
    · simp at hc
    · obtain ⟨y, hy, hk⟩ := hc
      exact ⟨y, hy, hk⟩
  · exact diagFold_counts_timeout calls [] a hA
  · exact diagFold_counts_ok calls [] b hitsB hne hB

/-- Witness for C4 at a concrete fan-out of one timed-out vector call and
one succeeding lexical call. -/
theorem run_agents_timeout_independence_witness :
    ∃ h' ∈ (run_agents [("vector", .timedOut),
        ("lexical", .success [⟨some "h1", 1, "t"⟩])]).1, h'.id = some "h1" :=
  (run_agents_timeout_independence
    [("vector", .timedOut), ("lexical", .success [⟨some "h1", 1, "t"⟩])]
    "vector" "lexical" [⟨some "h1", 1, "t"⟩]
    (by simp) (by simp) (by simp)).2.2.1 ⟨some "h1", 1, "t"⟩ (by simp)

/-! ## The query endpoint's use of `run_agents` (api.py, C1) -/

/-- A Python value reached when iterating the object bound to `raw_results`
in api.py.  `run_agents` returns the pair `(out, diagnostics)`; api.py
assigns this pair to `raw_results` without unpacking it, so iterating
`raw_results` yields the hit list itself, then the diagnostics dict. -/
inductive PyRawElem where
  | hitList (l : List Hit)
  | diagDict (m : List (String × AgentDiag))

/-- Iterating the un-unpacked `run_agents` return value. -/
def pyIterRaw (p : List Hit × List (String × AgentDiag)) : List PyRawElem :=
  [.hitList p.1, .diagDict p.2]

/-- The normalization loop of the query endpoint (api.py, "Normalize
results"): each iterated element `r` is sent `r.get("payload")`.  A dict
answers `.get` (and, having neither a `payload` nor a `source` nor a `text`
key, contributes nothing); a list has no `.get` attribute and raises
`AttributeError`. -/
def normalizeRawResults (raw : List Hit × List (String × AgentDiag)) :
    Except String (List EvidenceItem) :=
  (pyIterRaw raw).foldlM (fun acc v =>
    match v with
    | .hitList _ => Except.error "AttributeError: list object has no attribute get"
    | .diagDict _ => Except.ok acc) []

/-- C1 fails on the code: for every well-formed request the query endpoint
raises.  `run_agents` returns the pair `(merged_hits, diagnostics)`, api.py
binds it to `raw_results` without unpacking, and the normalization loop's
`r.get("payload")` then hits the merged-hits *list* first, raising
`AttributeError` below the request boundary — not the claimed 200 response
(nor the 422 reserved for malformed bodies). -/
theorem query_endpoint_normalize_raises (calls : List (String × CallResult)) :
    normalizeRawResults (run_agents calls) =
      Except.error "AttributeError: list object has no attribute get" := rfl

/-! ## Hallucination risk (api.py query endpoint, after synthesis) -/

/-- The hallucination-risk computation of the query endpoint: start from
`1 - confidence` (`0.7` when the confidence value cannot be coerced to
float), add `0.2` when the synthesis provenance is empty/falsy, `0.1` when
`retrieval_failures` contains `low_top_score`, `0.1` when `author_gap` is
set, then clamp into `[0, 1]`. -/
def hallucinationRisk (confidence : Option ℚ)
    (provenanceEmpty lowTopScore author_gap : Bool) : ℚ :=
  let base : ℚ := match confidence with
    | some c => 1 - c
    | none => 7/10
  let r1 := if provenanceEmpty then base + 2/10 else base
  let r2 := if lowTopScore then r1 + 1/10 else r1
  let r3 := if author_gap then r2 + 1/10 else r2
  max 0 (min 1 r3)

/-- C5: for every synthesis confidence value (including values below 0 or
above 1), the returned hallucination risk equals
`clamp01(1 - confidence + 0.2·[no provenance] + 0.1·[low_top_score] +
0.1·[author_gap])`, and in particular always lies in `[0, 1]`. -/
theorem hallucination_risk_formula (c : ℚ) (pe lt ag : Bool) :
    hallucinationRisk (some c) pe lt ag =
      max 0 (min 1 (1 - c + (if pe then 2/10 else 0) +
        (if lt then 1/10 else 0) + (if ag then 1/10 else 0))) ∧
    0 ≤ hallucinationRisk (some c) pe lt ag ∧
    hallucinationRisk (some c) pe lt ag ≤ 1 := by
  refine ⟨?_, ?_, ?_⟩
  · cases pe <;> cases lt <;> cases ag <;> simp [hallucinationRisk]
  · exact le_max_left 0 _
  · exact max_le (by norm_num) (min_le_left 1 _)

/-! ## Confidence judge (judge.py) -/

namespace settings

/-- config.py defaults for the judge adjustments. -/
def judge_contradiction_confidence_cap : ℚ := 6/10

def judge_contradiction_penalty_per_claim : ℚ := 1/10

def judge_contradiction_penalty_max : ℚ := 5/10

def judge_relation_boost_per_relation : ℚ := 5/100

def judge_relation_boost_max : ℚ := 2/10

def judge_relation_conflict_penalty : ℚ := 15/100

end settings

/-- A claim entry of `graph_reasoning["claims"]`: only `id` and
`contradict_count` are read by the judge. -/
structure GraphClaim where
  id : Option String
  contradict_count : ℕ
deriving DecidableEq

/-- The `graph_reasoning` dict consumed by the judge: claims, aggregated
relation strength and relation conflicts (only list lengths are read for
the latter two).  `none` models `None` or a non-dict value. -/
structure GraphReasoning where
  claims : List GraphClaim
  relation_strength : List String
  relation_conflicts : List String
deriving DecidableEq

/-- One entry of the extracted contradictions list. -/
structure Contradiction where
  id : Option String
  contradict_count : ℕ
deriving DecidableEq

/-- judge.py `extract_contradictions`: the claims with a positive
`contradict_count`, projected to id and count. -/
def extract_contradictions : Option GraphReasoning → List Contradiction
  | none => []
  | some gr => (gr.claims.filter (fun c => 0 < c.contradict_count)).map
      (fun c => ⟨c.id, c.contradict_count⟩)

/-- The judge-output dict.  `confidence` uses a double `Option`: the outer
layer records whether the key is present, the inner whether the value is
non-null (the adjustments skip the output when the key is missing *or*
null, but synthesis's `.get("confidence", 0.3)` distinguishes the two).
`notes` is the list of appended note tags; `contradictions` is `[]` when
the key is absent. -/
structure JudgeOutput where
  confidence : Option (Option ℚ)
  trusted_ids : List String
  notes : List String
  contradictions : List Contradiction
deriving DecidableEq

/-- judge.py `apply_contradiction_penalty`: multiplicative discount capped
at `judge_contradiction_penalty_max`, proportional to the contradiction
count, with the result further capped at the contradiction confidence
cap. -/
def apply_contradiction_penalty (j : JudgeOutput) (contradiction_count : ℕ) :
    JudgeOutput :=
  match j.confidence.join with
  | none => j
  | some base =>
    let cap := settings.judge_contradiction_confidence_cap
    let penalty := min settings.judge_contradiction_penalty_max
      (settings.judge_contradiction_penalty_per_claim * contradiction_count)
    let adjusted := base * (1 - penalty)
    { j with confidence := some (some (min adjusted cap)),
             notes := j.notes ++ ["contradiction_penalty"] }

/-- `len(graph_reasoning.get("relation_strength") or [])` guarded by the
dict check. -/
def grStrength : Option GraphReasoning → ℕ
  | some g => g.relation_strength.length
  | none => 0

/-- `len(graph_reasoning.get("relation_conflicts") or [])` guarded by the
dict check. -/
def grConflicts : Option GraphReasoning → ℕ
  | some g => g.relation_conflicts.length
  | none => 0

/-- judge.py `apply_relation_boost`: additive bonus capped at
`judge_relation_boost_max`, proportional to the relation-strength count,
skipped entirely when any contradiction fired or no relations exist. -/
def apply_relation_boost (j : JudgeOutput) (gr : Option GraphReasoning)
    (contradiction_count : ℕ) : JudgeOutput :=
  match j.confidence.join with
  | none => j
  | some base =>
    if 0 < contradiction_count then j
    else
      let strength := grStrength gr
      if strength ≤ 0 then j
      else
        let boost := min settings.judge_relation_boost_max
          (settings.judge_relation_boost_per_relation * strength)
        { j with confidence := some (some (min 1 (base + boost))),
                 notes := j.notes ++ ["relation_boost"] }

/-- judge.py `apply_relation_conflict_penalty`: multiplicative discount
`min(0.5, judge_relation_conflict_penalty * conflicts)`, floored at 0.
Unlike the boost, it takes no contradiction count and is never gated on
contradictions. -/
def apply_relation_conflict_penalty (j : JudgeOutput)
    (gr : Option GraphReasoning) : JudgeOutput :=
  match j.confidence.join with
  | none => j
  | some base =>
    let conflicts := grConflicts gr
    if conflicts ≤ 0 then j
    else
      let penalty := min (1/2 : ℚ) (settings.judge_relation_conflict_penalty * conflicts)
      { j with confidence := some (some (max 0 (base * (1 - penalty)))),
               notes := j.notes ++ ["relation_conflict_penalty"] }

/-- The judge dict parsed from the LLM completion (`_safe_json_extract`):
any JSON object, so each expected key may be absent; an LLM-supplied
`contradictions` key is also possible. -/
structure ParsedJudge where
  confidence : Option (Option ℚ)
  trusted_ids : List String
  notes : List String
  contradictions : List Contradiction
deriving DecidableEq

/-- The outcome of the judge's LLM call: a parsed JSON object, a completed
response containing no parseable JSON object, or a timeout/transport
error. -/
inductive JudgeLLM where
  | parsed (p : ParsedJudge)
  | nonJson
  | failed
deriving DecidableEq

/-- `[e.get("id") for e in evidence[:3] if e.get("id")]`. -/
def top3Ids (evidence : List EvidenceItem) : List String :=
  (evidence.take 3).filterMap (fun e =>
    match e.id with
    | some i => if i ≠ "" then some i else none
    | none => none)

/-- judge.py `judge_evidence`: on a parsed LLM response, attach the
extracted contradictions and apply the contradiction penalty when any
exist, then the relation-conflict penalty, then the relation boost.  On a
non-JSON response (resp. timeout/error), synthesize the fallback dict with
confidence 0.4 and note `judge_non_json` (resp. 0.3 and
`judge_error_fallback`), trusting the top-3 evidence ids, and apply the
same three adjustments. -/
def judge_evidence (evidence : List EvidenceItem)
    (graph_reasoning : Option GraphReasoning) (llmOut : JudgeLLM) : JudgeOutput :=
  match llmOut with
  | .parsed p =>
    let parsed0 : JudgeOutput := ⟨p.confidence, p.trusted_ids, p.notes, p.contradictions⟩
    let contradicted := extract_contradictions graph_reasoning
    let parsed1 := if contradicted ≠ [] then
        apply_contradiction_penalty { parsed0 with contradictions := contradicted }
          contradicted.length
      else parsed0
    let parsed2 := apply_relation_conflict_penalty parsed1 graph_reasoning
    apply_relation_boost parsed2 graph_reasoning contradicted.length
  | .nonJson =>
    let fallback0 : JudgeOutput :=
      ⟨some (some (4/10)), top3Ids evidence, ["judge_non_json"], []⟩
    let contradicted := extract_contradictions graph_reasoning
    let fallback1 := if contradicted ≠ [] then
        apply_contradiction_penalty { fallback0 with contradictions := contradicted }
          contradicted.length
      else fallback0
    let fallback2 := apply_relation_conflict_penalty fallback1 graph_reasoning
    apply_relation_boost fallback2 graph_reasoning contradicted.length
  | .failed =>
    let fallback0 : JudgeOutput :=
      ⟨some (some (3/10)), top3Ids evidence, ["judge_error_fallback"], []⟩
    let contradicted := extract_contradictions graph_reasoning
    let fallback1 := if contradicted ≠ [] then
        apply_contradiction_penalty { fallback0 with contradictions := contradicted }
          contradicted.length
      else fallback0
    let fallback2 := apply_relation_conflict_penalty fallback1 graph_reasoning
    apply_relation_boost fallback2 graph_reasoning contradicted.length

theorem join_eq_some {o : Option (Option ℚ)} {a : ℚ} (h : o.join = some a) :
    o = some (some a) := by
  cases o with
  | none => simp [Option.join] at h
  | some x =>
    cases x with
    | none => simp [Option.join] at h
    | some b =>
      simp only [Option.join] at h
      obtain rfl : b = a := by injection h
      rfl

theorem pen_cap (j : JudgeOutput) (n : ℕ) :
    ∀ c, (apply_contradiction_penalty j n).confidence = some (some c) →
      c ≤ settings.judge_contradiction_confidence_cap := by
  intro c hc
  unfold apply_contradiction_penalty at hc
  split at hc
  · rename_i hjoin
    rw [hc] at hjoin
    simp [Option.join] at hjoin
  · rename_i base hjoin
    simp only [Option.some.injEq] at hc
    rw [← hc]
    exact min_le_right _ _

theorem pen_range (j : JudgeOutput) (n : ℕ)
    (hj : ∀ c, j.confidence = some (some c) → 0 ≤ c ∧ c ≤ 1) :
    ∀ c, (apply_contradiction_penalty j n).confidence = some (some c) →
      0 ≤ c ∧ c ≤ 1 := by
  intro c hc
  unfold apply_contradiction_penalty at hc
  split at hc
  · exact hj c hc
  · rename_i base hjoin
    have hbase := hj base (join_eq_some hjoin)
    simp only [Option.some.injEq] at hc
    rw [← hc]
    have hn : (0:ℚ) ≤ (n:ℚ) := Nat.cast_nonneg n
    have hpen0 : (0:ℚ) ≤ min settings.judge_contradiction_penalty_max
        (settings.judge_contradiction_penalty_per_claim * n) := by
      refine le_min (by norm_num [settings.judge_contradiction_penalty_max]) ?_
      rw [settings.judge_contradiction_penalty_per_claim]
      positivity
    have hpen1 : min settings.judge_contradiction_penalty_max
        (settings.judge_contradiction_penalty_per_claim * n) ≤ 1 :=
      (min_le_left _ _).trans (by norm_num [settings.judge_contradiction_penalty_max])
    constructor
    · refine le_min (mul_nonneg hbase.1 (by linarith)) ?_
      norm_num [settings.judge_contradiction_confidence_cap]
    · exact (min_le_right _ _).trans
        (by norm_num [settings.judge_contradiction_confidence_cap])

theorem conflict_cap (j : JudgeOutput) (gr : Option GraphReasoning)
    (hj : ∀ c, j.confidence = some (some c) →
      c ≤ settings.judge_contradiction_confidence_cap) :
    ∀ c, (apply_relation_conflict_penalty j gr).confidence = some (some c) →
      c ≤ settings.judge_contradiction_confidence_cap := by
  intro c hc
  unfold apply_relation_conflict_penalty at hc
  split at hc
  · exact hj c hc
  · rename_i base hjoin
    have hbase := hj base (join_eq_some hjoin)
    simp only [] at hc
    split at hc
    · exact hj c hc
    · simp only [Option.some.injEq] at hc
      rw [← hc]
      have hm : (0:ℚ) ≤ (grConflicts gr : ℚ) := Nat.cast_nonneg _
      have hp0 : (0:ℚ) ≤ min (1/2 : ℚ)
          (settings.judge_relation_conflict_penalty * grConflicts gr) := by
        refine le_min (by norm_num) ?_
        rw [settings.judge_relation_conflict_penalty]
        positivity
      have hp1 : min (1/2 : ℚ)
          (settings.judge_relation_conflict_penalty * grConflicts gr) ≤ 1/2 :=
        min_le_left _ _
      refine max_le (by norm_num [settings.judge_contradiction_confidence_cap]) ?_
      rcases le_or_lt base 0 with hb | hb
      · have h0 : base * (1 - min (1/2 : ℚ)
            (settings.judge_relation_conflict_penalty * grConflicts gr)) ≤ 0 :=
          mul_nonpos_of_nonpos_of_nonneg hb (by linarith)
        exact h0.trans (by norm_num [settings.judge_contradiction_confidence_cap])
      · have h0 : base * (1 - min (1/2 : ℚ)
            (settings.judge_relation_conflict_penalty * grConflicts gr)) ≤ base := by
          nlinarith
        exact h0.trans hbase

theorem conflict_range (j : JudgeOutput) (gr : Option GraphReasoning)
    (hj : ∀ c, j.confidence = some (some c) → 0 ≤ c ∧ c ≤ 1) :
    ∀ c, (apply_relation_conflict_penalty j gr).confidence = some (some c) →
      0 ≤ c ∧ c ≤ 1 := by
  intro c hc
  unfold apply_relation_conflict_penalty at hc
  split at hc
  · exact hj c hc
  · rename_i base hjoin
    have hbase := hj base (join_eq_some hjoin)
    simp only [] at hc
    split at hc
    · exact hj c hc
    · simp only [Option.some.injEq] at hc
      rw [← hc]
      have hm : (0:ℚ) ≤ (grConflicts gr : ℚ) := Nat.cast_nonneg _
      have hp0 : (0:ℚ) ≤ min (1/2 : ℚ)
          (settings.judge_relation_conflict_penalty * grConflicts gr) := by
        refine le_min (by norm_num) ?_
        rw [settings.judge_relation_conflict_penalty]
        positivity
      have hp1 : min (1/2 : ℚ)
          (settings.judge_relation_conflict_penalty * grConflicts gr) ≤ 1/2 :=
        min_le_left _ _
      refine ⟨le_max_left 0 _, max_le (by norm_num) ?_⟩
      nlinarith [hbase.1, hbase.2]

theorem boost_range (j : JudgeOutput) (gr : Option GraphReasoning) (n : ℕ)
    (hj : ∀ c, j.confidence = some (some c) → 0 ≤ c ∧ c ≤ 1) :
    ∀ c, (apply_relation_boost j gr n).confidence = some (some c) →
      0 ≤ c ∧ c ≤ 1 := by
  intro c hc
  unfold apply_relation_boost at hc
  split at hc
  · exact hj c hc
  · rename_i base hjoin
    have hbase := hj base (join_eq_some hjoin)
    split at hc
    · exact hj c hc
    · simp only [] at hc
      split at hc
      · exact hj c hc
      · simp only [Option.some.injEq] at hc
        rw [← hc]
        have hm : (0:ℚ) ≤ (grStrength gr : ℚ) := Nat.cast_nonneg _
        have hb0 : (0:ℚ) ≤ min settings.judge_relation_boost_max
            (settings.judge_relation_boost_per_relation * grStrength gr) := by
          refine le_min (by norm_num [settings.judge_relation_boost_max]) ?_
          rw [settings.judge_relation_boost_per_relation]
          positivity
        exact ⟨le_min (by norm_num) (by linarith [hbase.1]), min_le_left _ _⟩

theorem boost_id (j : JudgeOutput) (gr : Option GraphReasoning) {n : ℕ}
    (hn : 0 < n) : apply_relation_boost j gr n = j := by
  unfold apply_relation_boost
  split
  · rfl
  · rw [if_pos hn]

/-- A concrete graph-reasoning value with one contradicted claim and one
relation conflict (used by the C2 witness and by C3). -/
def gr0 : GraphReasoning := ⟨[⟨some "c1", 1⟩], [], ["conflict"]⟩

/-- C2 fails as stated: a parsed LLM confidence outside `[0,1]` with no
graph-extracted contradictions, conflicts or relations is returned
unchanged, here `2`, which both exceeds 1 and, with the LLM-supplied
`contradictions` key non-empty on the output, exceeds the configured cap
`0.6`. -/
theorem judge_confidence_bounds_counterexample :
    (judge_evidence [] none
        (.parsed ⟨some (some 2), [], [], [⟨some "c", 1⟩]⟩)).confidence
      = some (some 2) ∧
    (judge_evidence [] none
        (.parsed ⟨some (some 2), [], [], [⟨some "c", 1⟩]⟩)).contradictions ≠ [] ∧
    ¬ ((2:ℚ) ≤ 1) ∧
    ¬ ((2:ℚ) ≤ settings.judge_contradiction_confidence_cap) := by
  refine ⟨rfl, by decide, by norm_num, ?_⟩
  norm_num [settings.judge_contradiction_confidence_cap]

/-- C2 amended: the fallback paths always return a confidence in `[0,1]`,
and so does the LLM-parsed path *provided* the parsed confidence lies in
`[0,1]`; whenever the graph-extracted contradictions are non-empty (the
condition that fires the contradiction penalty) every returned confidence
is at most the configured cap, on all paths and without any range
assumption.  (An out-of-range parsed confidence, or an LLM-supplied
`contradictions` key without graph contradictions, escapes the bounds, as
the counterexample shows.) -/
theorem judge_confidence_bounds (evidence : List EvidenceItem)
    (gr : Option GraphReasoning) (llmOut : JudgeLLM) :
    ((∀ p, llmOut = JudgeLLM.parsed p →
        ∀ c, p.confidence = some (some c) → 0 ≤ c ∧ c ≤ 1) →
      ∀ c, (judge_evidence evidence gr llmOut).confidence = some (some c) →
        0 ≤ c ∧ c ≤ 1) ∧
    (extract_contradictions gr ≠ [] →
      ∀ c, (judge_evidence evidence gr llmOut).confidence = some (some c) →
        c ≤ settings.judge_contradiction_confidence_cap) := by
  have main : ∀ (base0 : JudgeOutput),
      (∀ c, base0.confidence = some (some c) → 0 ≤ c ∧ c ≤ 1) →
      (∀ c, (apply_relation_boost (apply_relation_conflict_penalty
          (if extract_contradictions gr ≠ [] then
            apply_contradiction_penalty
              { base0 with contradictions := extract_contradictions gr }
              (extract_contradictions gr).length
          else base0) gr) gr (extract_contradictions gr).length).confidence
        = some (some c) → 0 ≤ c ∧ c ≤ 1) := by
    intro base0 hb
    refine boost_range _ gr _ (conflict_range _ gr ?_)
    by_cases hc : extract_contradictions gr ≠ []
    · rw [if_pos hc]
      exact pen_range _ _ (fun c h => hb c h)
    · rw [if_neg hc]
      exact hb
  have mainCap : extract_contradictions gr ≠ [] → ∀ (base0 : JudgeOutput),
      (∀ c, (apply_relation_boost (apply_relation_conflict_penalty
          (if extract_contradictions gr ≠ [] then
            apply_contradiction_penalty
              { base0 with contradictions := extract_contradictions gr }
              (extract_contradictions gr).length
          else base0) gr) gr (extract_contradictions gr).length).confidence
        = some (some c) → c ≤ settings.judge_contradiction_confidence_cap) := by
    intro hc base0
    rw [boost_id _ _ (List.length_pos.mpr hc), if_pos hc]
    exact conflict_cap _ gr (pen_cap _ _)
  cases llmOut with
  | parsed p =>
    constructor
    · intro hconf
      exact main ⟨p.confidence, p.trusted_ids, p.notes, p.contradictions⟩
        (hconf p rfl)
    · intro hc
      exact mainCap hc ⟨p.confidence, p.trusted_ids, p.notes, p.contradictions⟩
  | nonJson =>
    constructor
    · intro _
      refine main _ ?_
      intro c h
      obtain rfl : (4/10 : ℚ) = c := by injection h with h1; injection h1
      norm_num
    · intro hc
      exact mainCap hc _
  | failed =>
    constructor
    · intro _
      refine main _ ?_
      intro c h
      obtain rfl : (3/10 : ℚ) = c := by injection h with h1; injection h1
      norm_num
    · intro hc
      exact mainCap hc _

/-- Witness for the amended C2: the non-JSON fallback with no graph
reasoning returns confidence 0.4, placed in `[0,1]` by the first conjunct;
and a parsed confidence of 5 (out of range) combined with the contradicted
claim and relation conflict of `gr0` yields 0.51, which the second conjunct
bounds by the cap with no range assumption. -/
theorem judge_confidence_bounds_witness :
    ((0:ℚ) ≤ 4/10 ∧ (4/10:ℚ) ≤ 1) ∧
    (51/100 : ℚ) ≤ settings.judge_contradiction_confidence_cap :=
  ⟨(judge_confidence_bounds [] none .nonJson).1 (fun _ h => nomatch h) (4/10) rfl,
   (judge_confidence_bounds [] (some gr0)
       (.parsed ⟨some (some 5), [], [], []⟩)).2 (by decide) (51/100) (by
     have e : (judge_evidence [] (some gr0)
         (.parsed ⟨some (some 5), [], [], []⟩)).confidence
         = some (some (max 0 ((min ((5:ℚ) *
             (1 - min settings.judge_contradiction_penalty_max
               (settings.judge_contradiction_penalty_per_claim * ((1:ℕ) : ℚ))))
             settings.judge_contradiction_confidence_cap) *
             (1 - min (1/2 : ℚ)
               (settings.judge_relation_conflict_penalty * ((1:ℕ) : ℚ)))))) := rfl
     rw [e]
     norm_num [settings.judge_relation_conflict_penalty,
       settings.judge_contradiction_penalty_max,
       settings.judge_contradiction_penalty_per_claim,
       settings.judge_contradiction_confidence_cap, min_def, max_def])⟩

/-- C3 fails as stated: in a judge run whose extracted contradictions list
is non-empty (one contradicted claim), the relation-conflict penalty does
*not* leave the confidence unchanged — a parsed confidence 0.5 becomes
0.45 under the contradiction penalty and then 0.45·0.85 = 0.3825 under the
relation-conflict penalty. -/
theorem judge_relation_conflict_gating_counterexample :
    extract_contradictions (some gr0) ≠ [] ∧
    (apply_relation_conflict_penalty
        ⟨some (some (9/20)), [], ["contradiction_penalty"],
          extract_contradictions (some gr0)⟩ (some gr0)).confidence
      ≠ some (some (9/20)) ∧
    (judge_evidence [] (some gr0)
        (.parsed ⟨some (some (1/2)), [], [], []⟩)).confidence
      = some (some (153/400)) := by
  have e1 : (apply_relation_conflict_penalty
      ⟨some (some (9/20)), [], ["contradiction_penalty"],
        extract_contradictions (some gr0)⟩ (some gr0)).confidence
      = some (some (max 0 ((9/20 : ℚ) * (1 - min (1/2 : ℚ)
          (settings.judge_relation_conflict_penalty * ((1:ℕ) : ℚ)))))) := rfl
  have e2 : (judge_evidence [] (some gr0)
      (.parsed ⟨some (some (1/2)), [], [], []⟩)).confidence
      = some (some (max 0 ((min ((1/2 : ℚ) *
          (1 - min settings.judge_contradiction_penalty_max
            (settings.judge_contradiction_penalty_per_claim * ((1:ℕ) : ℚ))))
          settings.judge_contradiction_confidence_cap) *
          (1 - min (1/2 : ℚ)
            (settings.judge_relation_conflict_penalty * ((1:ℕ) : ℚ)))))) := rfl
  refine ⟨by decide, ?_, ?_⟩
  · rw [e1]
    norm_num [settings.judge_relation_conflict_penalty, min_def, max_def]
  · rw [e2]
    norm_num [settings.judge_relation_conflict_penalty,
      settings.judge_contradiction_penalty_max,
      settings.judge_contradiction_penalty_per_claim,
      settings.judge_contradiction_confidence_cap, min_def, max_def]

/-- C3 amended: the relation-conflict penalty is applied unconditionally —
in every parsed judge run with non-empty extracted contradictions the
output equals the contradiction penalty followed by the relation-conflict
penalty; only the relation boost is gated on the absence of contradictions
(it is the identity here). -/
theorem judge_relation_conflict_unconditional (evidence : List EvidenceItem)
    (gr : Option GraphReasoning) (p : ParsedJudge)
    (hc : extract_contradictions gr ≠ []) :
    judge_evidence evidence gr (.parsed p) =
      apply_relation_conflict_penalty
        (apply_contradiction_penalty
          ⟨p.confidence, p.trusted_ids, p.notes, extract_contradictions gr⟩
          (extract_contradictions gr).length) gr := by
  simp only [judge_evidence, if_pos hc]
  exact boost_id _ _ (List.length_pos.mpr hc)

/-- Witness for the amended C3 at the concrete graph reasoning `gr0`. -/
theorem judge_relation_conflict_unconditional_witness :
    judge_evidence [] (some gr0) (.parsed ⟨some (some (1/2)), [], [], []⟩) =
      apply_relation_conflict_penalty
        (apply_contradiction_penalty
          ⟨some (some (1/2)), [], [], extract_contradictions (some gr0)⟩
          (extract_contradictions (some gr0)).length) (some gr0) :=
  judge_relation_conflict_unconditional [] (some gr0)
    ⟨some (some (1/2)), [], [], []⟩ (by decide)

theorem pen_trusted (j : JudgeOutput) (n : ℕ) :
    (apply_contradiction_penalty j n).trusted_ids = j.trusted_ids := by
  unfold apply_contradiction_penalty
  split <;> rfl

theorem conflict_trusted (j : JudgeOutput) (gr : Option GraphReasoning) :
    (apply_relation_conflict_penalty j gr).trusted_ids = j.trusted_ids := by
  unfold apply_relation_conflict_penalty
  split
  · rfl
  · simp only []
    split <;> rfl

theorem boost_trusted (j : JudgeOutput) (gr : Option GraphReasoning) (n : ℕ) :
    (apply_relation_boost j gr n).trusted_ids = j.trusted_ids := by
  unfold apply_relation_boost
  split
  · rfl
  · split
    · rfl
    · simp only []
      split <;> rfl

theorem head_append_left {α : Type} (l l' : List α) (h : l ≠ []) :
    (l ++ l').head? = l.head? := by
  cases l with
  | nil => exact absurd rfl h
  | cons a t => rfl

theorem pen_notes (j : JudgeOutput) (n : ℕ) (h : j.notes ≠ []) :
    (apply_contradiction_penalty j n).notes.head? = j.notes.head? ∧
    (apply_contradiction_penalty j n).notes ≠ [] := by
  unfold apply_contradiction_penalty
  split
  · exact ⟨rfl, h⟩
  · exact ⟨head_append_left _ _ h, by simp⟩

theorem conflict_notes (j : JudgeOutput) (gr : Option GraphReasoning)
    (h : j.notes ≠ []) :
    (apply_relation_conflict_penalty j gr).notes.head? = j.notes.head? ∧
    (apply_relation_conflict_penalty j gr).notes ≠ [] := by
  unfold apply_relation_conflict_penalty
  split
  · exact ⟨rfl, h⟩
  · simp only []
    split
    · exact ⟨rfl, h⟩
    · exact ⟨head_append_left _ _ h, by simp⟩

theorem boost_notes (j : JudgeOutput) (gr : Option GraphReasoning) (n : ℕ)
    (h : j.notes ≠ []) :
    (apply_relation_boost j gr n).notes.head? = j.notes.head? ∧
    (apply_relation_boost j gr n).notes ≠ [] := by
  unfold apply_relation_boost
  split
  · exact ⟨rfl, h⟩
  · split
    · exact ⟨rfl, h⟩
    · simp only []
      split
      · exact ⟨rfl, h⟩
      · exact ⟨head_append_left _ _ h, by simp⟩

/-- C9: on every judge fallback path the synthesized JudgeOutput trusts the
ids of the top-3 evidence items, its notes lead with the tag identifying
the fallback reason (`judge_non_json` for an unparseable response with base
confidence 0.4, `judge_error_fallback` for timeout/error with base 0.3),
and the three deterministic adjustments are still applied to that base; in
particular with no graph reasoning the returned confidence is exactly the
base 0.4 resp. 0.3. -/
theorem judge_fallback_synthesis (evidence : List EvidenceItem)
    (gr : Option GraphReasoning) :
    (judge_evidence evidence gr .nonJson =
      apply_relation_boost (apply_relation_conflict_penalty
        (if extract_contradictions gr ≠ [] then
          apply_contradiction_penalty
            ⟨some (some (4/10)), top3Ids evidence, ["judge_non_json"],
              extract_contradictions gr⟩ (extract_contradictions gr).length
         else ⟨some (some (4/10)), top3Ids evidence, ["judge_non_json"], []⟩)
        gr) gr (extract_contradictions gr).length) ∧
    (judge_evidence evidence gr .failed =
      apply_relation_boost (apply_relation_conflict_penalty
        (if extract_contradictions gr ≠ [] then
          apply_contradiction_penalty
            ⟨some (some (3/10)), top3Ids evidence, ["judge_error_fallback"],
              extract_contradictions gr⟩ (extract_contradictions gr).length
         else ⟨some (some (3/10)), top3Ids evidence, ["judge_error_fallback"], []⟩)
        gr) gr (extract_contradictions gr).length) ∧
    (judge_evidence evidence gr .nonJson).trusted_ids = top3Ids evidence ∧
    (judge_evidence evidence gr .failed).trusted_ids = top3Ids evidence ∧
    (judge_evidence evidence gr .nonJson).notes.head? = some "judge_non_json" ∧
    (judge_evidence evidence gr .failed).notes.head? = some "judge_error_fallback" ∧
    judge_evidence evidence none .nonJson =
      ⟨some (some (4/10)), top3Ids evidence, ["judge_non_json"], []⟩ ∧
    judge_evidence evidence none .failed =
      ⟨some (some (3/10)), top3Ids evidence, ["judge_error_fallback"], []⟩ := by
  have htr : ∀ (b : JudgeOutput),
      (apply_relation_boost (apply_relation_conflict_penalty
        (if extract_contradictions gr ≠ [] then
          apply_contradiction_penalty { b with contradictions := extract_contradictions gr }
            (extract_contradictions gr).length
         else b) gr) gr (extract_contradictions gr).length).trusted_ids = b.trusted_ids := by
    intro b
    rw [boost_trusted, conflict_trusted]
    by_cases hc : extract_contradictions gr ≠ []
    · rw [if_pos hc, pen_trusted]
    · rw [if_neg hc]
  have hno : ∀ (b : JudgeOutput), b.notes ≠ [] →
      (apply_relation_boost (apply_relation_conflict_penalty
        (if extract_contradictions gr ≠ [] then
          apply_contradiction_penalty { b with contradictions := extract_contradictions gr }
            (extract_contradictions gr).length
         else b) gr) gr (extract_contradictions gr).length).notes.head? = b.notes.head? := by
    intro b hb
    by_cases hc : extract_contradictions gr ≠ []
    · rw [if_pos hc]
      have h1 := pen_notes { b with contradictions := extract_contradictions gr }
        (extract_contradictions gr).length hb
      have h2 := conflict_notes _ gr h1.2
      have h3 := boost_notes _ gr (extract_contradictions gr).length h2.2
      rw [h3.1, h2.1, h1.1]
    · rw [if_neg hc]
      have h2 := conflict_notes b gr hb
      have h3 := boost_notes _ gr (extract_contradictions gr).length h2.2
      rw [h3.1, h2.1]
  refine ⟨rfl, rfl, ?_, ?_, ?_, ?_, rfl, rfl⟩
  · exact htr ⟨some (some (4/10)), top3Ids evidence, ["judge_non_json"], []⟩
  · exact htr ⟨some (some (3/10)), top3Ids evidence, ["judge_error_fallback"], []⟩
  · exact hno ⟨some (some (4/10)), top3Ids evidence, ["judge_non_json"], []⟩ (by simp)
  · exact hno ⟨some (some (3/10)), top3Ids evidence, ["judge_error_fallback"], []⟩ (by simp)

/-! ## Synthesis text helpers (synthesis.py) -/

/-- Python `s.strip()`. -/
def pyStrip (s : String) : String :=
  String.mk (((s.data.dropWhile Char.isWhitespace).reverse.dropWhile
    Char.isWhitespace).reverse)

def isSentencePunct (c : Char) : Bool := c = '.' || c = '!' || c = '?'

def headIsPunct : List Char → Bool
  | p :: _ => isSentencePunct p
  | [] => false

/-- `re.split(r"(?<=[.!?])\s+", text)`: cut at every whitespace run that
immediately follows `.`, `!` or `?` (the run is consumed, the punctuation
stays with the preceding piece).  `cur` is the current piece, reversed;
`skip` records that the separator whitespace run is being consumed. -/
def splitSentencesAux : List Char → List Char → Bool → List (List Char)
  | [], cur, _ => [cur.reverse]
  | c :: rest, cur, skip =>
    if skip then
      if c.isWhitespace then splitSentencesAux rest cur skip
      else splitSentencesAux rest [c] false
    else if c.isWhitespace && headIsPunct cur then
      cur.reverse :: splitSentencesAux rest [] true
    else splitSentencesAux rest (c :: cur) false

/-- `re.match(r"^[A-Z]", s)`. -/
def startsUpperAZ (s : String) : Bool :=
  match s.data with
  | [] => false
  | c :: _ => 'A' ≤ c ∧ c ≤ 'Z'

/-- The accept/trim loop of `_extract_sentences`: strip each piece, skip
pieces shorter than 20 characters or not starting with a capital, stop once
`max_sentences` pieces were taken. -/
def extractSentencesLoop (max_sentences : ℕ) : List String → List String → List String
  | [], out => out.reverse
  | s :: rest, out =>
    let s := pyStrip s
    if s.length < 20 then extractSentencesLoop max_sentences rest out
    else if ¬ startsUpperAZ s then extractSentencesLoop max_sentences rest out
    else
      let out' := s :: out
      if max_sentences ≤ out'.length then out'.reverse
      else extractSentencesLoop max_sentences rest out'

/-- synthesis.py `_extract_sentences`. -/
def _extract_sentences (text : String) (max_sentences : ℕ) : List String :=
  if text = "" then []
  else extractSentencesLoop max_sentences
    ((splitSentencesAux (pyStrip text).data [] false).map String.mk) []

def keepKeyChar (c : Char) : Bool :=
  ('a' ≤ c ∧ c ≤ 'z') || ('0' ≤ c ∧ c ≤ '9') || c.isWhitespace

/-- synthesis.py `_normalize_sentence_key`: lower-case, strip characters
outside `[a-z0-9\s]`, normalize whitespace, keep the first 10 words. -/
def _normalize_sentence_key (sentence : String) : String :=
  let filtered := String.mk ((pyLower sentence).data.filter keepKeyChar)
  " ".intercalate ((pyWords filtered).take 10)

/-- `re.sub(r"\s+", " ", ·)`: collapse each whitespace run to one space
(`inWs` records that the current run already emitted its space). -/
def collapseWsAux : List Char → Bool → List Char
  | [], _ => []
  | c :: rest, inWs =>
    if c.isWhitespace then
      if inWs then collapseWsAux rest true
      else ' ' :: collapseWsAux rest true
    else c :: collapseWsAux rest false

def isLineBreak (c : Char) : Bool :=
  c = '\n' || c = '\r' || c = '\x0b' || c = '\x0c'

/-- Python `text.splitlines()` (modulo empty pieces, which every caller
strips and drops). -/
def splitLinesAux : List Char → List Char → List (List Char)
  | [], cur => [cur.reverse]
  | c :: rest, cur =>
    if isLineBreak c then cur.reverse :: splitLinesAux rest []
    else splitLinesAux rest (c :: cur)

/-- Python `s.startswith(t)`. -/
def pyStartsWith (s t : String) : Bool :=
  decide (t.data <+: s.data)

/-- synthesis.py `_clean_answer_text`: drop blank lines and lines that look
structured (starting with a brace or bracket, or mentioning provenance /
graph_reasoning), join with spaces, strip, collapse whitespace. -/
def _clean_answer_text (text : String) : String :=
  if text = "" then ""
  else
    let lines := (((splitLinesAux text.data []).map String.mk).map pyStrip).filter
      (fun l => l ≠ "")
    let kept := lines.filter (fun l =>
      let low := pyLower l
      ¬ (pyStartsWith low "\x7b" || pyStartsWith low "[" ||
        strIn "provenance" low || strIn "graph_reasoning" low))
    String.mk (collapseWsAux (pyStrip (" ".intercalate kept)).data false)

/-- synthesis.py `_TECHNICAL_PATTERNS`. -/
def _TECHNICAL_PATTERNS : List String :=
  ["\x7b", "\x7d", "[\x7b", "graph_reasoning", "provenance", "offset_start",
   "offset_end", "\"source\"", "\x27source\x27", "\"id\"", "\x27id\x27"]

/-- synthesis.py `_looks_technical`. -/
def _looks_technical (text : String) : Bool :=
  if text = "" then true
  else _TECHNICAL_PATTERNS.any (fun p => strIn p (pyLower text))

/-- synthesis.py `_is_natural_answer`: cleaned text of at least 40
characters that does not look technical. -/
def _is_natural_answer (text : String) : Bool :=
  let t := _clean_answer_text text
  if t.length < 40 then false
  else if _looks_technical t then false
  else true

/-- The key-dedup loop of `_clamp_natural_answer`. -/
def clampDedupLoop (max_sentences : ℕ) :
    List String → List String → List String → List String
  | [], _, out => out.reverse
  | s :: rest, seen, out =>
    let key := _normalize_sentence_key s
    if key ∈ seen then clampDedupLoop max_sentences rest seen out
    else
      let out' := s :: out
      if max_sentences ≤ out'.length then out'.reverse
      else clampDedupLoop max_sentences rest (key :: seen) out'

/-- synthesis.py `_clamp_natural_answer`. -/
def _clamp_natural_answer (text : String) (min_sentences max_sentences : ℕ) : String :=
  let sents := _extract_sentences text 8
  if sents = [] then _clean_answer_text text
  else
    let deduped := clampDedupLoop max_sentences sents [] []
    let deduped := if deduped.length < min_sentences ∧ sents ≠ [] then
        sents.take max_sentences
      else deduped
    _clean_answer_text (" ".intercalate deduped)

/-- The sentence-collection loop of `_format_fallback_answer`. -/
def collectSentencesLoop : List EvidenceItem → List String → List String
  | [], out => out
  | p :: rest, out =>
    let text := pyStrip p.text
    if text = "" then collectSentencesLoop rest out
    else
      let out' := out ++ _extract_sentences text 2
      if 2 ≤ out'.length then out'
      else collectSentencesLoop rest out'

/-- synthesis.py `_format_fallback_answer`: concatenate the first one or
two qualifying sentences of the picks, with a disclaimer when an author
was named but no author-matching evidence mentioned the query keywords. -/
def _format_fallback_answer (picks : List EvidenceItem)
    (author_terms : List String) (author_gap : Bool) : String :=
  let sentences := collectSentencesLoop picks []
  if sentences = [] then
    "I could not find enough clean evidence to generate a natural answer."
  else if author_terms ≠ [] ∧ author_gap then
    _clean_answer_text (("No direct passages from " ++ ", ".intercalate author_terms ++
      " mention the query keywords in the current dataset. ") ++
      " ".intercalate (sentences.take 2))
  else _clean_answer_text (" ".intercalate (sentences.take 2))

/-- synthesis.py `_naturalize_answer`: the inner rewrite LLM call.  Its
completion outcome is the parameter (`none` models timeout/transport
error); the result is the clamped text when it passes the naturalness
check, else `""`. -/
def _naturalize_answer (llmOut : Option String) : String :=
  match llmOut with
  | none => ""
  | some out =>
    let cleaned := _clamp_natural_answer out 2 4
    if _is_natural_answer cleaned then cleaned else ""

/-! ## Synthesis (synthesis.py `synthesize_answer`) -/

/-- One element of a parsed provenance list: either not a dict (skipped by
the cleaner) or a dict whose relevant keys each carry a double `Option`
(outer: key present, inner: value non-null). -/
inductive PEntry where
  | nonDict
  | entry (id chunk_id source : Option (Option String))
      (offset_start offset_end : Option (Option Int))
deriving DecidableEq

/-- The JSON value found at the parsed response's `provenance` key:
absent/null, a non-list value with its Python truthiness, or a list of
entries. -/
inductive ProvVal where
  | missing
  | prim (truthy : Bool)
  | plist (entries : List PEntry)
deriving DecidableEq

/-- Python truthiness of the provenance value. -/
def provTruthy : ProvVal → Bool
  | .missing => false
  | .prim t => t
  | .plist l => l ≠ []

def provIsList : ProvVal → Bool
  | .plist _ => true
  | _ => false

/-- The parsed synthesis JSON object; `answer` is `""` when the key is
absent or falsy. -/
structure SParsed where
  answer : String
  provenance : ProvVal
  confidence : Option (Option ℚ)
  explain_trace : Option String
deriving DecidableEq

/-- The outcome of the synthesis LLM call: a completed response (with the
`_safe_json_extract` result and whether the raw text was blank), a
timeout, or a transport error. -/
inductive SynthLLM where
  | ok (parsed : Option SParsed) (rawBlank : Bool)
  | timedOut
  | errored
deriving DecidableEq

/-- The synthesis result dict. -/
structure SynthesisOutput where
  answer : String
  provenance : ProvVal
  confidence : Option (Option ℚ)
  explain_trace : Option String
deriving DecidableEq

/-- `by_id = {e.get("id"): e for e in evidence}` followed by `by_id[eid]`:
a later evidence item overwrites an earlier one with the same id, so look
up the last match. -/
def by_id_lookup (evidence : List EvidenceItem) (eid : Option String) :
    Option EvidenceItem :=
  evidence.reverse.find? (fun e => decide (e.id = eid))

/-- Python `a or b` over `.get` results (falsy: `None` and `""`). -/
def pyOrStr (a b : Option String) : Option String :=
  match a with
  | some s => if s ≠ "" then some s else b
  | none => b

/-- The provenance cleaning loop of the parsed path (synthesis.py): skip
non-dict entries, resolve the entry against the evidence by
`p.get("id") or p.get("chunk_id")`, `setdefault` the offsets and source
from the matching evidence item, and drop the entry unless offset_start,
offset_end and a truthy source are all present. -/
def cleanProvEntry (evidence : List EvidenceItem) (p : PEntry) : Option PEntry :=
  match p with
  | .nonDict => none
  | .entry id chunk_id source os oe =>
    let eid := pyOrStr id.join chunk_id.join
    let filled :=
      match by_id_lookup evidence eid with
      | some e =>
        (match source with
          | none => some e.source
          | some v => some v,
         match os with
          | none => some e.offset_start
          | some v => some v,
         match oe with
          | none => some e.offset_end
          | some v => some v)
      | none => (source, os, oe)
    if filled.2.1.join = none ∨ filled.2.2.join = none ∨
        ¬ optStrTruthy filled.1.join then none
    else some (.entry id chunk_id filled.1 filled.2.1 filled.2.2)

/-- The provenance dicts built from evidence picks (rebuild path, non-JSON
path and timeout/error path of synthesis.py): keep only picks with both
offsets and a truthy source. -/
def provFromPicks (picks : List EvidenceItem) : List PEntry :=
  (picks.filter (fun p => p.offset_start ≠ none ∧ p.offset_end ≠ none ∧
    optStrTruthy p.source)).map
    (fun p => PEntry.entry (some p.id) none (some p.source)
      (some p.offset_start) (some p.offset_end))

/-- `trusted = judge_output.get("trusted_ids") or []` followed by
`picks = [by_id[t] for t in trusted if t in by_id]`, falling back to the
first three evidence items when empty. -/
def pickTrusted (evidence : List EvidenceItem) (judgeOut : Option JudgeOutput) :
    List EvidenceItem :=
  let trusted := match judgeOut with
    | some j => j.trusted_ids
    | none => []
  let picks := trusted.filterMap (fun t => by_id_lookup evidence (some t))
  if picks = [] then evidence.take 3 else picks

/-- The `_is_author` predicate of the non-JSON and error fallbacks. -/
def _is_author (author_terms : List String) (e : EvidenceItem) : Bool :=
  author_terms.any (fun a =>
    strIn a (pyLower (e.source.getD "")) || strIn a (pyLower e.text))

/-- The author filter both fallbacks apply to the picks when an author was
named but `author_gap` is set: prefer non-author picks when any exist. -/
def authorFilteredPicks (picks : List EvidenceItem) (author_terms : List String)
    (author_gap : Bool) : List EvidenceItem :=
  if author_terms ≠ [] ∧ author_gap then
    let non_author := picks.filter (fun e => ¬ _is_author author_terms e)
    if non_author ≠ [] then non_author else picks
  else picks

/-- `judge_output.get("confidence", 0.3) if isinstance(judge_output, dict)
else 0.3`: the default fires when the judge value is not a dict or the key
is absent; a key stored as null yields null. -/
def confDefault : Option JudgeOutput → Option ℚ
  | none => some (3/10)
  | some j =>
    match j.confidence with
    | none => some (3/10)
    | some v => v

/-- The shared tail of synthesize_answer (lines building `fallback`):
empty answer, provenance from the author-filtered picks, judge confidence,
then the formatted extractive answer when non-empty, with
`synthesis_unavailable` renamed to `synthesis_fallback_formatted` and the
timeout/error traces preserved. -/
def synthFallback (evidence : List EvidenceItem) (judgeOut : Option JudgeOutput)
    (author_terms : List String) (author_gap : Bool) (fail_trace : String) :
    SynthesisOutput :=
  let picks := authorFilteredPicks (pickTrusted evidence judgeOut) author_terms author_gap
  let prov := provFromPicks picks
  let formatted := _format_fallback_answer picks author_terms author_gap
  if formatted ≠ "" then
    ⟨formatted, .plist prov, some (confDefault judgeOut),
      some (if fail_trace = "synthesis_unavailable" then
        "synthesis_fallback_formatted" else fail_trace)⟩
  else ⟨"", .plist prov, some (confDefault judgeOut), some fail_trace⟩

/-- The non-JSON branch of synthesize_answer: validated provenance from the
author-filtered picks and a naturalized (or extractive, or fixed) answer
when the raw completion was non-blank; a blank completion falls through to
the `synthesis_unavailable` fallback. -/
def synthNonJson (evidence : List EvidenceItem) (judgeOut : Option JudgeOutput)
    (author_terms : List String) (author_gap : Bool) (naturalLLM : Option String)
    (rawBlank : Bool) : SynthesisOutput :=
  if rawBlank then
    synthFallback evidence judgeOut author_terms author_gap "synthesis_unavailable"
  else
    let picks := authorFilteredPicks (pickTrusted evidence judgeOut) author_terms author_gap
    let prov := provFromPicks picks
    let clean0 := _naturalize_answer naturalLLM
    let clean1 := if clean0 ≠ "" then clean0
      else _format_fallback_answer picks author_terms author_gap
    let clean2 := if clean1 ≠ "" then clean1
      else "I could not synthesize a clean answer from the available evidence."
    ⟨clean2, .plist prov, some (confDefault judgeOut), some "synthesis_non_json"⟩

/-- synthesis.py `synthesize_answer`, as a function of the two LLM call
outcomes (`llm` for the main grounded-generation call, `naturalLLM` for
the rewrite call reached on unnatural/non-JSON answers): on a parsed
response with truthy answer, clean the provenance list entry-wise (a
non-list provenance value is left as is), rebuild it from the trusted ids
(or top-3 evidence) when falsy, and post-process the answer through the
naturalize/extractive chain; otherwise take the non-JSON or
timeout/error fallback. -/
def synthesize_answer (evidence : List EvidenceItem) (judgeOut : Option JudgeOutput)
    (author_terms : List String) (author_gap : Bool)
    (llm : SynthLLM) (naturalLLM : Option String) : SynthesisOutput :=
  match llm with
  | .timedOut => synthFallback evidence judgeOut author_terms author_gap "synthesis_timeout"
  | .errored => synthFallback evidence judgeOut author_terms author_gap "synthesis_error"
  | .ok parsedOpt rawBlank =>
    match parsedOpt with
    | none => synthNonJson evidence judgeOut author_terms author_gap naturalLLM rawBlank
    | some p =>
      if p.answer = "" then
        synthNonJson evidence judgeOut author_terms author_gap naturalLLM rawBlank
      else
        let prov1 := match p.provenance with
          | .plist l => ProvVal.plist (l.filterMap (cleanProvEntry evidence))
          | v => v
        let prov2 := if provTruthy prov1 then prov1
          else ProvVal.plist (provFromPicks (pickTrusted evidence judgeOut))
        let ans1 := _clamp_natural_answer p.answer 2 4
        if _is_natural_answer ans1 then ⟨ans1, prov2, p.confidence, p.explain_trace⟩
        else
          let picks := pickTrusted evidence judgeOut
          let natural := _naturalize_answer naturalLLM
          if natural ≠ "" then ⟨natural, prov2, p.confidence, some "synthesis_naturalized"⟩
          else
            ⟨_clamp_natural_answer (_format_fallback_answer picks author_terms author_gap) 1 4,
              prov2, p.confidence, some "synthesis_fallback_formatted"⟩

/-- The completeness the claim asserts of a provenance item: non-null
source, offset_start and offset_end. -/
def provEntryComplete : PEntry → Prop
  | .nonDict => False
  | .entry _ _ source os oe =>
    os.join ≠ none ∧ oe.join ≠ none ∧ source.join ≠ none

theorem optStrTruthy_ne_none {o : Option String} (h : optStrTruthy o = true) :
    o ≠ none := by
  cases o with
  | none => simp [optStrTruthy] at h
  | some s => simp

theorem cleanProvEntry_complete (evidence : List EvidenceItem) (p q : PEntry)
    (h : cleanProvEntry evidence p = some q) : provEntryComplete q := by
  cases p with
  | nonDict => simp [cleanProvEntry] at h
  | entry id chunk_id source os oe =>
    unfold cleanProvEntry at h
    simp only [] at h
    split at h
    · simp at h
    · rename_i hcond
      push_neg at hcond
      obtain rfl := Option.some.inj h
      exact ⟨hcond.1, hcond.2.1, optStrTruthy_ne_none hcond.2.2⟩

theorem provFromPicks_complete (picks : List EvidenceItem) (e : PEntry)
    (h : e ∈ provFromPicks picks) : provEntryComplete e := by
  unfold provFromPicks at h
  rw [List.mem_map] at h
  obtain ⟨p, hp, rfl⟩ := h
  rw [List.mem_filter] at hp
  have hcond := hp.2
  simp only [decide_eq_true_eq] at hcond
  refine ⟨?_, ?_, ?_⟩
  · simpa [Option.join] using hcond.1
  · simpa [Option.join] using hcond.2.1
  · have h3 := hcond.2.2
    rcases hs : p.source with _ | s
    · rw [hs] at h3
      simp [optStrTruthy] at h3
    · simp [Option.join, hs]

theorem synthFallback_prov (evidence : List EvidenceItem)
    (judgeOut : Option JudgeOutput) (author_terms : List String)
    (author_gap : Bool) (fail_trace : String) :
    ∀ l, (synthFallback evidence judgeOut author_terms author_gap
      fail_trace).provenance = ProvVal.plist l →
      ∀ e ∈ l, provEntryComplete e := by
  intro l hl e he
  unfold synthFallback at hl
  simp only [] at hl
  by_cases hf : _format_fallback_answer
      (authorFilteredPicks (pickTrusted evidence judgeOut) author_terms author_gap)
      author_terms author_gap ≠ ""
  · rw [if_pos hf] at hl
    have hq : ProvVal.plist (provFromPicks (authorFilteredPicks
        (pickTrusted evidence judgeOut) author_terms author_gap)) = ProvVal.plist l := hl
    rw [ProvVal.plist.injEq] at hq
    subst hq
    exact provFromPicks_complete _ e he
  · rw [if_neg hf] at hl
    have hq : ProvVal.plist (provFromPicks (authorFilteredPicks
        (pickTrusted evidence judgeOut) author_terms author_gap)) = ProvVal.plist l := hl
    rw [ProvVal.plist.injEq] at hq
    subst hq
    exact provFromPicks_complete _ e he

theorem synthNonJson_prov (evidence : List EvidenceItem)
    (judgeOut : Option JudgeOutput) (author_terms : List String)
    (author_gap : Bool) (naturalLLM : Option String) (rawBlank : Bool) :
    ∀ l, (synthNonJson evidence judgeOut author_terms author_gap naturalLLM
      rawBlank).provenance = ProvVal.plist l →
      ∀ e ∈ l, provEntryComplete e := by
  intro l hl e he
  unfold synthNonJson at hl
  by_cases hb : rawBlank = true
  · rw [if_pos hb] at hl
    exact synthFallback_prov evidence judgeOut author_terms author_gap
      "synthesis_unavailable" l hl e he
  · rw [if_neg hb] at hl
    simp only [] at hl
    have hq : ProvVal.plist (provFromPicks (authorFilteredPicks
        (pickTrusted evidence judgeOut) author_terms author_gap)) = ProvVal.plist l := hl
    rw [ProvVal.plist.injEq] at hq
    subst hq
    exact provFromPicks_complete _ e he

theorem parsed_prov_complete (evidence : List EvidenceItem)
    (judgeOut : Option JudgeOutput) (pv : ProvVal) :
    ∀ l, (if provTruthy (match pv with
        | ProvVal.plist l0 => ProvVal.plist (l0.filterMap (cleanProvEntry evidence))
        | v => v) then (match pv with
        | ProvVal.plist l0 => ProvVal.plist (l0.filterMap (cleanProvEntry evidence))
        | v => v)
      else ProvVal.plist (provFromPicks (pickTrusted evidence judgeOut)))
      = ProvVal.plist l → ∀ e ∈ l, provEntryComplete e := by
  intro l hl e he
  rcases pv with _ | t | l0
  · rw [if_neg (by simp [provTruthy])] at hl
    rw [ProvVal.plist.injEq] at hl
    subst hl
    exact provFromPicks_complete _ e he
  · rcases t with _ | _
    · rw [if_neg (by simp [provTruthy])] at hl
      rw [ProvVal.plist.injEq] at hl
      subst hl
      exact provFromPicks_complete _ e he
    · rw [if_pos (by simp [provTruthy])] at hl
      simp at hl
  · by_cases hne : provTruthy (ProvVal.plist (l0.filterMap (cleanProvEntry evidence)))
    · rw [if_pos hne] at hl
      rw [ProvVal.plist.injEq] at hl
      subst hl
      rw [List.mem_filterMap] at he
      obtain ⟨q, _, hq⟩ := he
      exact cleanProvEntry_complete evidence q e hq
    · rw [if_neg hne] at hl
      rw [ProvVal.plist.injEq] at hl
      subst hl
      exact provFromPicks_complete _ e he

/-- C7 amended: on every path of synthesize_answer, whenever the returned
provenance is a list, every item of it has non-null source, offset_start
and offset_end — an entry lacking the complete triple is dropped.  (The
qualification "whenever it is a list" is forced: a truthy non-list
provenance value parsed from the LLM response is passed through
unvalidated, as the counterexample shows.) -/
theorem synthesis_provenance_validity (evidence : List EvidenceItem)
    (judgeOut : Option JudgeOutput) (author_terms : List String)
    (author_gap : Bool) (llm : SynthLLM) (naturalLLM : Option String) :
    ∀ l, (synthesize_answer evidence judgeOut author_terms author_gap llm
      naturalLLM).provenance = ProvVal.plist l →
      ∀ e ∈ l, provEntryComplete e := by
  intro l hl e he
  cases llm with
  | timedOut =>
    exact synthFallback_prov evidence judgeOut author_terms author_gap
      "synthesis_timeout" l hl e he
  | errored =>
    exact synthFallback_prov evidence judgeOut author_terms author_gap
      "synthesis_error" l hl e he
  | ok parsedOpt rawBlank =>
    cases parsedOpt with
    | none =>
      exact synthNonJson_prov evidence judgeOut author_terms author_gap
        naturalLLM rawBlank l hl e he
    | some p =>
      unfold synthesize_answer at hl
      simp only [] at hl
      by_cases ha : p.answer = ""
      · rw [if_pos ha] at hl
        exact synthNonJson_prov evidence judgeOut author_terms author_gap
          naturalLLM rawBlank l hl e he
      · rw [if_neg ha] at hl
        by_cases hn : _is_natural_answer (_clamp_natural_answer p.answer 2 4) = true
        · rw [if_pos hn] at hl
          exact parsed_prov_complete evidence judgeOut p.provenance l hl e he
        · rw [if_neg hn] at hl
          by_cases hnat : _naturalize_answer naturalLLM ≠ ""
          · rw [if_pos hnat] at hl
            exact parsed_prov_complete evidence judgeOut p.provenance l hl e he
          · rw [if_neg hnat] at hl
            exact parsed_prov_complete evidence judgeOut p.provenance l hl e he

/-- The concrete parsed synthesis response of the C7 counterexample: a
truthy answer and a non-list truthy provenance value. -/
def badParsed : SParsed := ⟨"x", .prim true, none, none⟩

/-- C7 fails as stated: when the LLM returns a JSON object whose
`provenance` value is a truthy non-list (e.g. a string), the parsed path
passes it through untouched — the returned provenance is not a list of
validated items at all. -/
theorem synthesis_provenance_validity_counterexample :
    (synthesize_answer [] none [] false (.ok (some badParsed) false)
        none).provenance = ProvVal.prim true ∧
    provIsList ((synthesize_answer [] none [] false (.ok (some badParsed) false)
        none).provenance) = false := by
  constructor
  · rfl
  · rfl

/-- The concrete complete evidence item of the C7 witness. -/
def e0 : EvidenceItem :=
  ⟨some "d1", "Fear is often more painful than the cause of it.",
    some "seneca_letters.txt", none, some 0, some 48, "", "", none⟩

/-- Witness for the amended C7: the timeout fallback over one complete
evidence item returns a provenance list whose single entry the theorem
proves complete. -/
theorem synthesis_provenance_validity_witness :
    provEntryComplete (PEntry.entry (some (some "d1")) none
      (some (some "seneca_letters.txt")) (some (some 0)) (some (some 48))) :=
  synthesis_provenance_validity [e0] none [] false .timedOut none
    [PEntry.entry (some (some "d1")) none (some (some "seneca_letters.txt"))
      (some (some 0)) (some (some 48))]
    (by rfl)
    (PEntry.entry (some (some "d1")) none (some (some "seneca_letters.txt"))
      (some (some 0)) (some (some 48)))
    (List.mem_singleton.mpr rfl)

end SagRag
